import Mathlib

/-!
Verification development for the `prometheus-allkeyshop` exporter
(`allkeyshop.py`).  The definitions below are a shallow embedding of the
script's product-resolution and offer-selection pipeline:

* strings are modelled as Lean `String`/`List Char` and the regex-based
  slug generator is modelled character by character on the ASCII fragment
  (Python's `str.lower`, `\w`, `\s` restricted to ASCII);
* prices (Python floats) are modelled as rationals `ℚ`;
* dictionaries are modelled as association lists, a missing key being a
  `none` lookup;
* exceptions are modelled by `Except`/error sums, one constructor per
  distinct raise site;
* network input (HTML pages, JSON bodies) is passed in explicitly: an
  HTML page is the list of start tags (attribute lists) in document
  order, a JSON body is `Option OffersPayload` (`none` = malformed JSON).
-/

/-! ## Character classes (ASCII models of Python's `str.lower`, `\s`, `\w`) -/

/-- ASCII model of Python's `\s` (also the characters stripped by
`str.strip()` in the ASCII range): space, tab, newline, carriage return,
vertical tab, form feed. -/
def isPySpace (c : Char) : Bool :=
  c.toNat == 32 || c.toNat == 9 || c.toNat == 10 || c.toNat == 13 ||
  c.toNat == 11 || c.toNat == 12

/-- ASCII model of Python's `\w`: letters, digits and underscore. -/
def isWordChar (c : Char) : Bool :=
  (48 ≤ c.toNat && c.toNat ≤ 57) || (65 ≤ c.toNat && c.toNat ≤ 90) ||
  (97 ≤ c.toNat && c.toNat ≤ 122) || c == '_'

/-- The character class `[\s_-]` of the run-collapsing substitution in
`to_slug`. -/
def isSepChar (c : Char) : Bool :=
  isPySpace c || c == '_' || c == '-'

/-! ## Slug generator (`AllKeyShop.ProductPageRequest.to_slug`)

```
string = string.lower().strip()
string = re.sub(r'[^\w\s-]', '', string)
string = re.sub(r'[\s_-]+', '-', string)
string = re.sub(r'^-+|-+$', '', string)
```
-/

/-- Model of `str.strip()`: drop whitespace from both ends. -/
def pyStrip (l : List Char) : List Char :=
  (((l.dropWhile isPySpace).reverse).dropWhile isPySpace).reverse

/-- Model of `re.sub(r'[^\w\s-]', '', s)`: keep only word characters,
whitespace and hyphens. -/
def keepWordSpaceHyphen (l : List Char) : List Char :=
  l.filter (fun c => isWordChar c || isPySpace c || c == '-')

/-- Model of `re.sub(r'[\s_-]+', '-', s)`: replace every maximal run of
whitespace/underscore/hyphen by a single hyphen (the hyphen is emitted at
the end of the run, which yields the same string). -/
def collapseSeps : List Char → List Char
  | [] => []
  | [c] => if isSepChar c then ['-'] else [c]
  | c :: d :: rest =>
    if isSepChar c then
      if isSepChar d then collapseSeps (d :: rest)
      else '-' :: collapseSeps (d :: rest)
    else c :: collapseSeps (d :: rest)

/-- Model of `re.sub(r'^-+|-+$', '', s)`: drop hyphens from both ends. -/
def trimHyphens (l : List Char) : List Char :=
  (((l.dropWhile (· == '-')).reverse).dropWhile (· == '-')).reverse

/-- Body of `to_slug` on character lists.  `Char.toLower` is the ASCII model of
`str.lower()`. -/
def slugifyL (l : List Char) : List Char :=
  trimHyphens (collapseSeps (keepWordSpaceHyphen (pyStrip (l.map Char.toLower))))

/-- Embedding of `AllKeyShop.ProductPageRequest.to_slug`. -/
def slugify (s : String) : String :=
  ⟨slugifyL s.data⟩

/-- Model of `str.lower()` on a whole string (ASCII model, character by
character). -/
def pyLower (s : String) : String :=
  ⟨s.data.map Char.toLower⟩

/-! ## Python `int(str)` (used by `int(attr[1])` and `int(section)`) -/

/-- Value of a digit string (most significant first). -/
def digitsToNat (l : List Char) : Nat :=
  l.foldl (fun acc c => acc * 10 + (c.toNat - 48)) 0

/-- Model of Python `int(str)`: optional surrounding whitespace, optional
sign, then a nonempty digit string; anything else raises `ValueError`
(`none`).  (Underscore digit grouping is not modelled.) -/
def pyIntL (l : List Char) : Option Int :=
  match pyStrip l with
  | '+' :: ds =>
    if ds.isEmpty then none
    else if ds.all Char.isDigit then some (digitsToNat ds) else none
  | '-' :: ds =>
    if ds.isEmpty then none
    else if ds.all Char.isDigit then some (-(digitsToNat ds : Int)) else none
  | ds =>
    if ds.isEmpty then none
    else if ds.all Char.isDigit then some (digitsToNat ds) else none

/-- Python `int` on a `String`. -/
def pyInt (s : String) : Option Int :=
  pyIntL s.data

/-! ## Platform names (`AllKeyShop.PLATFORM_*`) and the product page URL -/

def PLATFORM_PC : String := "cd-key"

def PLATFORM_PS5 : String := "ps5"

def PLATFORM_PS4 : String := "ps4"

def PLATFORM_XB1 : String := "xbox-one"

def PLATFORM_XBSX : String := "xbox-series-x"

def PLATFORM_SWITCH : String := "nintendo-switch"

/-- The spec's enumerated `PlatformTag` set. -/
inductive PlatformTag where
  | PC | PS5 | PS4 | XB1 | XBSX | Switch
deriving DecidableEq

/-- The tag's own name, as written in the spec's enumeration. -/
def tagLabel : PlatformTag → String
  | .PC => "PC"
  | .PS5 => "PS5"
  | .PS4 => "PS4"
  | .XB1 => "XB1"
  | .XBSX => "XBSX"
  | .Switch => "Switch"

/-- The fixed upstream path segment of each tag, from the class constants
`AllKeyShop.PLATFORM_*`. -/
def platformSegment : PlatformTag → String
  | .PC => PLATFORM_PC
  | .PS5 => PLATFORM_PS5
  | .PS4 => PLATFORM_PS4
  | .XB1 => PLATFORM_XB1
  | .XBSX => PLATFORM_XBSX
  | .Switch => PLATFORM_SWITCH

/-- Platform aliasing of `ProductPageRequest.__init__`: `"pc"` is accepted as shorthand for the
PC platform segment; every other string is used as given. -/
def aliasPlatform (platform : String) : String :=
  if platform == "pc" then PLATFORM_PC else platform

/-- The product page URL built by `ProductPageRequest.__init__`. -/
def productPageURL (product platform : String) : String :=
  "https://www.allkeyshop.com/blog/buy-" ++ slugify product ++ "-" ++
    aliasPlatform platform ++ "-compare-prices/"

/-! ## Product page parsing (`AllKeyShop.ProductParser`) -/

/-- The attribute list of one HTML start tag, in source order. -/
abbrev Attrs := List (String × String)

/-- Embedding of `ProductParser.handle_starttag` acting on the parser state: the
`result` attribute is `none` while unassigned (`self.result: int` is only
an annotation).  Every `data-product-id` attribute whose value parses as
an integer overwrites `result`; a `ValueError` from `int()` is swallowed
and the previous state kept. -/
def handle_starttag (result : Option Int) (attrs : Attrs) : Option Int :=
  attrs.foldl
    (fun r a =>
      if a.1 == "data-product-id" then
        match pyInt a.2 with
        | some v => some v
        | none => r
      else r)
    result

/-- Effect of `HTMLParser.feed` over a whole document: the start tags are visited in
document (left-to-right, outermost-first) order. -/
def feedTags (doc : List Attrs) : Option Int :=
  doc.foldl handle_starttag none

/-- The integer successfully parsed from one attribute, if any:
`none` both for other attribute names and for malformed values. -/
def pickProductId (a : String × String) : Option Int :=
  if a.1 == "data-product-id" then pyInt a.2 else none

/-- All successfully parsed `data-product-id` values of a document, in
document order (specification-side helper used to characterise
`feedTags`). -/
def parsedValues (doc : List Attrs) : List Int :=
  doc.flatMap fun attrs => attrs.filterMap pickProductId

/-- The two distinct failures of `resolve_product`'s final lines:
reading the never-assigned `parser.result` raises `AttributeError`
(which carries no product/platform information), while a falsy (zero)
result fails the `assert`, whose message names the product and the
platform. -/
inductive ResolveError where
  | attributeError : ResolveError
  | assertionError (product platform : String) : ResolveError
deriving DecidableEq

/-- Embedding of `AllKeyShop.resolve_product`, given the fetched page as the list of
its start tags: feed the parser, then `assert parser.result`. -/
def resolve_product (product platform : String) (page : List Attrs) :
    Except ResolveError Int :=
  match feedTags page with
  | none => .error .attributeError
  | some v =>
    if v = 0 then .error (.assertionError product platform) else .ok v

/-- The product/platform pair named by a resolution outcome, if any
(only the `assert` message names them). -/
def resolveErrorNames : Except ResolveError Int → Option (String × String)
  | .error (.assertionError product platform) => some (product, platform)
  | _ => none

/-! ## Offers (`AllKeyShop.get_offers` and the selection in `main`) -/

/-- One upstream offer, with exactly the fields the script reads:
`x["stock"]`, `x["platform"]`, and `x["price"][currency]["price"]`
(modelled as a currency-indexed association list of prices). -/
structure Offer where
  stock : String
  platform : String
  price : List (String × ℚ)
deriving DecidableEq

/-- Lookup of `x["price"][currency]["price"]`, `none` when the currency key is
missing (a `KeyError` at the access site). -/
def priceKey (o : Offer) (currency : String) : Option ℚ :=
  o.price.lookup currency

/-- The parsed JSON body of an offers response: the truthiness of its
`success` field and its `offers` list. -/
structure OffersPayload where
  success : Bool
  offers : List Offer
deriving DecidableEq

/-- The failures that can escape `get_offers`: a `json.loads` failure on
a malformed body, and the `assert content["success"]` failure. -/
inductive FetchError where
  | jsonError : FetchError
  | notSuccess : FetchError
  | httpError : FetchError
deriving DecidableEq

/-- Embedding of `AllKeyShop.get_offers`, given the response body (`none` = body that
`json.loads` rejects): assert the `success` field, then return the
`offers` value unchanged. -/
def get_offers (body : Option OffersPayload) : Except FetchError (List Offer) :=
  match body with
  | none => .error .jsonError
  | some content =>
    if content.success then .ok content.offers else .error .notSuccess

/-! ## Offer selection (`main`, lines 300-320) -/

/-- The failures of the selection expression: a `KeyError` from
`x["price"][currency]` on some offer, or `min()` over an empty
sequence (`ValueError`). -/
inductive SelectError where
  | keyError : SelectError
  | noOffer : SelectError
deriving DecidableEq

/-- The offers the selection compares: in-stock offers, further filtered
by `x["platform"] == store` when a store preference is set (truthy). -/
def qualifying (offers : List Offer) (store : Option String) : List Offer :=
  let available := offers.filter (fun o => o.stock == "InStock")
  match store with
  | some s => available.filter (fun o => o.platform == s)
  | none => available

/-- The comparison key `x["price"][currency]["price"]` as a total
function (the default is irrelevant: `selectBest` only compares keys
after checking that no compared offer lacks the currency). -/
def priceVal (currency : String) (o : Offer) : ℚ :=
  (priceKey o currency).getD 0

/-- Python's `min(iterable, key=...)`: keep the current best and replace
it only on a strictly smaller key, so the first minimal element wins. -/
def minByPrice (currency : String) : Offer → List Offer → Offer
  | best, [] => best
  | best, o :: rest =>
    if priceVal currency o < priceVal currency best then
      minByPrice currency o rest
    else
      minByPrice currency best rest

/-- The selection `min(available_offers, key=lambda x:
x["price"][currency]["price"])`: a missing currency key on any compared
offer raises `KeyError` (aborting the whole selection); an empty
sequence raises `ValueError`; otherwise the stable minimum is taken. -/
def selectBest (offers : List Offer) (currency : String)
    (store : Option String) : Except SelectError ℚ :=
  let available := qualifying offers store
  if available.any (fun o => (priceKey o currency).isNone) then
    .error .keyError
  else
    match available with
    | [] => .error .noOffer
    | o :: rest =>
      .ok (priceVal currency (minByPrice currency o rest))

/-! ## The polling tick (`main`, lines 297-326) -/

/-- One entry of the `products` list: the resolved product id together
with the gauge labels `(name, currency)`. -/
structure ProductCtx where
  product : Int
  name : String
  currency : String
deriving DecidableEq

/-- The gauge sink: a last-write-wins map from the label pair
`(product_name, currency)` to the published price. -/
abbrev Gauge := String × String → Option ℚ

/-- The body of the per-product `try` block of one tick: on any failure
(fetch or selection) the gauge is left untouched; on success the product's
label pair is set to the selected price. -/
def tickUpdate (fetched : Except FetchError (List Offer))
    (store : Option String) (p : ProductCtx) (g : Gauge) : Gauge :=
  match fetched with
  | .error _ => g
  | .ok offers =>
    match selectBest offers p.currency store with
    | .error _ => g
    | .ok best => fun k => if k = (p.name, p.currency) then some best else g k

/-- One polling tick: iterate over all products sequentially.  `fetch`
abstracts `aks.get_offers()` (network plus JSON handling); `store` is the
single store filter the loop computes (see `tickStoreFilter`). -/
def runTick (fetch : ProductCtx → Except FetchError (List Offer))
    (store : Option String) (ps : List ProductCtx) (g : Gauge) : Gauge :=
  ps.foldl (fun g p => tickUpdate (fetch p) store p g) g

/-- Whether the tick's `try` block fails for a product (fetch error, or
selection error). -/
def productFails (fetch : ProductCtx → Except FetchError (List Offer))
    (store : Option String) (p : ProductCtx) : Bool :=
  match fetch p with
  | .error _ => true
  | .ok offers =>
    match selectBest offers p.currency store with
    | .error _ => true
    | .ok _ => false

/-! ## Configuration loading (`main`, lines 217-289) -/

/-- One configuration section, with the keys the script reads.  A key
that is absent from the section is `none`. -/
structure SectionCfg where
  header : String
  currencyKey : Option String := none
  regionKey : Option String := none
  editionKey : Option String := none
  nameKey : Option String := none
  platformKey : Option String := none
  storeKey : Option String := none
deriving DecidableEq

/-- A parsed configuration file: the optional `DEFAULT` section and the
ordinary sections in file order. -/
structure Config where
  defaultSection : Option SectionCfg := none
  sections : List SectionCfg := []

/-- Model of `settings.get(key, fallback=...)` on a `configparser` section proxy:
the section's own value, else the `DEFAULT` section's value, else the
fallback.  (The script's `defaults` dict is always empty, because
`ConfigParser.has_section("DEFAULT")` is `False`, so the fallback
arguments are the literals `None` and `""`.) -/
def cfgGet (cfg : Config) (s : SectionCfg) (key : SectionCfg → Option String)
    (fallback : Option String) : Option String :=
  match key s with
  | some v => some v
  | none =>
    match cfg.defaultSection.bind key with
    | some v => some v
    | none => fallback

/-- Any exception during the setup of one section makes the whole process
`exit(1)`; the printed message identifies the section. -/
inductive SetupError where
  | configError (sectionHeader : String) : SetupError
deriving DecidableEq

/-- Setup of one configured section (`main`, lines 241-279): require a
truthy currency and lower-case it; if the header parses as an `int` use
it as the product id directly (with `Name` falling back to the header),
otherwise resolve the header as a product name on the configured
platform.  `resolver` abstracts `AllKeyShop.resolve_product` together
with its network fetch. -/
def setupSection (cfg : Config)
    (resolver : String → String → Except ResolveError Int)
    (s : SectionCfg) : Except SetupError ProductCtx :=
  match cfgGet cfg s (·.currencyKey) none with
  | none => .error (.configError s.header)
  | some c =>
    if c = "" then .error (.configError s.header)
    else
      let currency := pyLower c
      match pyInt s.header with
      | some pid =>
        let name := (cfgGet cfg s (·.nameKey) (some s.header)).getD s.header
        .ok ⟨pid, name, currency⟩
      | none =>
        match cfgGet cfg s (·.platformKey) none with
        | none => .error (.configError s.header)
        | some pl =>
          if pl = "" then .error (.configError s.header)
          else
            match resolver s.header pl with
            | .ok pid => .ok ⟨pid, s.header, currency⟩
            | .error _ => .error (.configError s.header)

/-- The whole `products` list, stopping at the first failing section
(the script calls `exit(1)` there). -/
def setupProducts (cfg : Config)
    (resolver : String → String → Except ResolveError Int) :
    Except SetupError (List ProductCtx) :=
  cfg.sections.mapM (setupSection cfg resolver)

/-- The store filter the polling loop actually applies (line 311):
`settings` there is the variable left over from the configuration `for`
loop, so it refers to the **last** configured section, and the one value
computed from it is used for **every** product on every tick.  A falsy
(empty or absent) value means no filtering. -/
def tickStoreFilter (cfg : Config) : Option String :=
  match cfg.sections.getLast? with
  | none => none
  | some s =>
    let v := (cfgGet cfg s (·.storeKey) (some "")).getD ""
    if v = "" then none else some v

/-- The store filter the spec prescribes for a product: the same `Store`
lookup, but against the product's **own** section. -/
def specStoreFilter (cfg : Config) (s : SectionCfg) : Option String :=
  let v := (cfgGet cfg s (·.storeKey) (some "")).getD ""
  if v = "" then none else some v

/-! ## Concrete instances used to exhibit the store-filter leak -/

/-- Section `[1]` of the leak scenario: numeric id 1, `Store = A`. -/
def sec1Leak : SectionCfg :=
  { header := "1", currencyKey := some "eur", storeKey := some "A" }

/-- Section `[2]` of the leak scenario: numeric id 2, `Store = B`. -/
def sec2Leak : SectionCfg :=
  { header := "2", currencyKey := some "eur", storeKey := some "B" }

/-- A two-product configuration whose sections set different stores. -/
def cfgLeak : Config :=
  { defaultSection := none, sections := [sec1Leak, sec2Leak] }

/-- Offers returned for every product of the leak scenario: store `A`
sells at 10, store `B` at 5, both in stock. -/
def offersLeak : List Offer :=
  [⟨"InStock", "A", [("eur", 10)]⟩, ⟨"InStock", "B", [("eur", 5)]⟩]

/-- The fetch oracle of the leak scenario. -/
def fetchLeak : ProductCtx → Except FetchError (List Offer) :=
  fun _ => .ok offersLeak

/-! ## Concrete instances used for the tick-isolation witness -/

/-- A gauge with no published values. -/
def gaugeEmpty : Gauge := fun _ => none

/-- A fetch oracle that fails for the product named `bad` and returns a
single in-stock offer for everyone else. -/
def fetchFlaky : ProductCtx → Except FetchError (List Offer) :=
  fun p =>
    if p.name == "bad" then .error .httpError
    else .ok [⟨"InStock", "S", [("eur", 7)]⟩]

/-- The product whose fetch fails. -/
def prodBad : ProductCtx := ⟨1, "bad", "eur"⟩

/-- The product whose fetch succeeds. -/
def prodGood : ProductCtx := ⟨2, "good", "eur"⟩

/-! ## Adjacency predicate for the slug shape invariant -/

/-- Two adjacent characters are acceptable in a collapsed string when
they are not both separators. -/
def sepAdjOK (a b : Char) : Prop :=
  isSepChar a = false ∨ isSepChar b = false

/-! # Theorems -/

/-! ## Parser characterisation (claims C2, C5, C10) -/

theorem handle_starttag_body_or (r : Option Int) (a : String × String) :
    (if a.1 == "data-product-id" then
        match pyInt a.2 with
        | some v => some v
        | none => r
      else r) = (pickProductId a).or r := by
  unfold pickProductId
  cases h : a.1 == "data-product-id" with
  | false => simp [h]
  | true => cases hp : pyInt a.2 <;> simp [h, hp]

theorem handle_starttag_or (attrs : Attrs) :
    ∀ r, handle_starttag r attrs = (attrs.filterMap pickProductId).getLast?.or r := by
  induction attrs with
  | nil => intro r; rfl
  | cons a rest ih =>
    intro r
    have h1 : handle_starttag r (a :: rest) =
        handle_starttag (if a.1 == "data-product-id" then
            match pyInt a.2 with
            | some v => some v
            | none => r
          else r) rest := rfl
    rw [h1, ih, handle_starttag_body_or]
    cases hp : pickProductId a with
    | none => simp [List.filterMap_cons, hp]
    | some v =>
      have h2 : (a :: rest).filterMap pickProductId =
          [v] ++ rest.filterMap pickProductId := by
        simp [List.filterMap_cons, hp]
      rw [h2, List.getLast?_append]
      simp [Option.or_assoc]

theorem foldl_handle_starttag (doc : List Attrs) :
    ∀ r, doc.foldl handle_starttag r = (parsedValues doc).getLast?.or r := by
  induction doc with
  | nil => intro r; rfl
  | cons attrs rest ih =>
    intro r
    rw [List.foldl_cons, ih, handle_starttag_or]
    have h1 : parsedValues (attrs :: rest) =
        attrs.filterMap pickProductId ++ parsedValues rest := by
      simp [parsedValues]
    rw [h1, List.getLast?_append, Option.or_assoc]

/-- C2 (amended): when the page contains several `data-product-id`
attributes, the value kept by the parser is the **last** successfully
parsed integer in document order (each successful parse overwrites the
previous one), while malformed attribute values are skipped without
aborting the scan. -/
theorem parser_keeps_last_parsed (doc : List Attrs) :
    feedTags doc = (parsedValues doc).getLast? := by
  unfold feedTags
  rw [foldl_handle_starttag]
  exact Option.or_none

/-- C2 (counterexample): on a page with two parsable `data-product-id`
attributes, in values `1` then `2`, the parser keeps `2`, not the first
value `1` the claim requires. -/
theorem parser_first_match_cex :
    feedTags [[("data-product-id", "1")], [("data-product-id", "2")]] = some 2 ∧
    some (2 : Int) ≠ some (1 : Int) := by
  exact ⟨rfl, by decide⟩

/-- C5 (code evaluated at the failing input): on a page with no
`data-product-id` attribute, and on a page where no attribute value
parses, `parser.result` is never assigned, so resolution fails with an
`AttributeError` that names neither the product nor the platform — the
naming `assert` message in the source never fires on these paths. -/
theorem resolve_attribute_error_bug :
    resolve_product "thegame" "pc" [[("class", "foo")], [("href", "x")]] =
      .error .attributeError ∧
    resolve_product "thegame" "pc" [[("data-product-id", "abc")]] =
      .error .attributeError ∧
    resolveErrorNames
      (resolve_product "thegame" "pc" [[("class", "foo")], [("href", "x")]]) =
      none := by
  exact ⟨rfl, rfl, rfl⟩

/-- C10: a page whose (only) successfully parsed `data-product-id` value
is `0` makes `assert parser.result` fail (zero is falsy), so resolution
fails with the assertion error naming the product and the platform; and
whenever resolution succeeds the returned product id is nonzero. -/
theorem resolve_nonzero (product platform : String) (page : List Attrs) :
    (feedTags page = some 0 →
      resolve_product product platform page =
        .error (.assertionError product platform)) ∧
    (∀ v : Int, resolve_product product platform page = .ok v → v ≠ 0) := by
  constructor
  · intro h
    simp [resolve_product, h]
  · intro v hv h0
    subst h0
    cases hfeed : feedTags page with
    | none => simp [resolve_product, hfeed] at hv
    | some w =>
      by_cases hw : w = 0
      · simp [resolve_product, hfeed, hw] at hv
      · simp [resolve_product, hfeed, hw] at hv

/-- Witness for C10 at concrete pages: the page `[("data-product-id",
"0")]` fails with the naming assertion error, and the page
`[("data-product-id", "7")]` resolves to the nonzero id `7`. -/
theorem resolve_nonzero_witness :
    resolve_product "g" "pc" [[("data-product-id", "0")]] =
      .error (.assertionError "g" "pc") ∧
    (7 : Int) ≠ 0 :=
  ⟨(resolve_nonzero "g" "pc" [[("data-product-id", "0")]]).1 rfl,
   (resolve_nonzero "g" "pc" [[("data-product-id", "7")]]).2 7 rfl⟩

/-! ## Offer fetch characterisation (claim C6) -/

/-- C6: `get_offers` fails when the body is not valid JSON; fails when
the parsed `success` field is falsy; and otherwise returns the `offers`
sequence verbatim — moreover a successful return can only arise that
way, with the offers list unmodified and unvalidated. -/
theorem get_offers_characterization :
    get_offers none = .error .jsonError ∧
    (∀ p : OffersPayload, p.success = true → get_offers (some p) = .ok p.offers) ∧
    (∀ p : OffersPayload, p.success = false →
      get_offers (some p) = .error .notSuccess) ∧
    (∀ (body : Option OffersPayload) (l : List Offer),
      get_offers body = .ok l →
      ∃ p, body = some p ∧ p.success = true ∧ l = p.offers) := by
  refine ⟨rfl, ?_, ?_, ?_⟩
  · intro p hp; simp [get_offers, hp]
  · intro p hp; simp [get_offers, hp]
  · intro body l h
    cases body with
    | none => exact Except.noConfusion h
    | some p =>
      cases hp : p.success with
      | false => rw [get_offers, hp] at h; exact Except.noConfusion h
      | true =>
        rw [get_offers, hp] at h
        exact ⟨p, rfl, hp, (Except.ok.inj h).symm⟩

/-- Witness for C6 at concrete bodies: a successful payload returns its
offers list unchanged; a falsy `success` is rejected; and a successful
result is inverted back to its payload. -/
theorem get_offers_characterization_witness :
    get_offers (some ⟨true, [⟨"InStock", "A", [("eur", 3)]⟩]⟩) =
      .ok [⟨"InStock", "A", [("eur", 3)]⟩] ∧
    get_offers (some ⟨false, []⟩) = .error .notSuccess ∧
    ∃ p, (some (⟨true, []⟩ : OffersPayload)) = some p ∧ p.success = true ∧
      ([] : List Offer) = p.offers :=
  ⟨get_offers_characterization.2.1 _ rfl,
   get_offers_characterization.2.2.1 _ rfl,
   get_offers_characterization.2.2.2 (some ⟨true, []⟩) [] rfl⟩

/-! ## Platform segments (claim C7) -/

/-- C7 (counterexample): the upstream path segment of the XB1 tag is
`"xbox-one"`, not the tag's lowercase form `"xb1"`, so "the others map
to their tag's lowercase form" fails at XB1. -/
theorem platform_xb1_cex :
    platformSegment .XB1 = "xbox-one" ∧
    pyLower (tagLabel .XB1) = "xb1" ∧
    platformSegment .XB1 ≠ pyLower (tagLabel .XB1) := by
  refine ⟨rfl, by decide, by decide⟩

/-- C7 (amended): PC maps to a segment distinct from its tag name (in
either case); PS5 and PS4 map to their tag's lowercase form; XB1, XBSX
and Switch map to fixed multi-word (hyphenated) segments; and `"pc"` is
accepted as an alias for the PC segment, producing the same product page
URL. -/
theorem platform_segments_amended :
    platformSegment .PC ≠ tagLabel .PC ∧
    platformSegment .PC ≠ pyLower (tagLabel .PC) ∧
    platformSegment .PS5 = pyLower (tagLabel .PS5) ∧
    platformSegment .PS4 = pyLower (tagLabel .PS4) ∧
    '-' ∈ (platformSegment .XB1).data ∧
    '-' ∈ (platformSegment .XBSX).data ∧
    '-' ∈ (platformSegment .Switch).data ∧
    aliasPlatform "pc" = platformSegment .PC ∧
    ∀ product, productPageURL product "pc" = productPageURL product PLATFORM_PC := by
  refine ⟨by decide, by decide, by decide, by decide, by decide, by decide,
    by decide, rfl, ?_⟩
  intro product
  have h1 : aliasPlatform "pc" = PLATFORM_PC := rfl
  have h2 : aliasPlatform PLATFORM_PC = PLATFORM_PC := rfl
  unfold productPageURL
  rw [h1, h2]

/-! ## Offer selection (claims C3, C4) -/

theorem minByPrice_le (currency : String) :
    ∀ (l : List Offer) (b : Offer), ∀ x ∈ b :: l,
      priceVal currency (minByPrice currency b l) ≤ priceVal currency x := by
  intro l
  induction l with
  | nil =>
    intro b x hx
    rw [List.mem_singleton] at hx
    subst hx
    exact le_refl _
  | cons o rest ih =>
    intro b x hx
    by_cases h : priceVal currency o < priceVal currency b
    · have hm : minByPrice currency b (o :: rest) = minByPrice currency o rest := by
        simp [minByPrice, h]
      rw [hm]
      rcases List.mem_cons.mp hx with hb | ho
      · rw [hb]
        exact le_of_lt (lt_of_le_of_lt (ih o o (List.mem_cons_self _ _)) h)
      · exact ih o x ho
    · have hm : minByPrice currency b (o :: rest) = minByPrice currency b rest := by
        simp [minByPrice, h]
      rw [hm]
      rcases List.mem_cons.mp hx with hb | ho
      · rw [hb]
        exact ih b b (List.mem_cons_self _ _)
      · rcases List.mem_cons.mp ho with hoo | hrest
        · rw [hoo]
          exact le_trans (ih b b (List.mem_cons_self _ _)) (le_of_not_lt h)
        · exact ih b x (List.mem_cons_of_mem _ hrest)

theorem minByPrice_decomp (currency : String) :
    ∀ (l : List Offer) (b : Offer),
      ∃ pre post,
        b :: l = pre ++ minByPrice currency b l :: post ∧
        ∀ x ∈ pre,
          priceVal currency (minByPrice currency b l) < priceVal currency x := by
  intro l
  induction l with
  | nil =>
    intro b
    exact ⟨[], [], rfl, by simp⟩
  | cons o rest ih =>
    intro b
    by_cases h : priceVal currency o < priceVal currency b
    · have hm : minByPrice currency b (o :: rest) = minByPrice currency o rest := by
        simp [minByPrice, h]
      obtain ⟨pre, post, hdec, hpre⟩ := ih o
      refine ⟨b :: pre, post, ?_, ?_⟩
      · rw [hm, List.cons_append, ← hdec]
      · intro x hx
        rw [hm]
        rcases List.mem_cons.mp hx with hb | hp
        · subst hb
          exact lt_of_le_of_lt (minByPrice_le currency rest o o (List.mem_cons_self _ _)) h
        · exact hpre x hp
    · have hm : minByPrice currency b (o :: rest) = minByPrice currency b rest := by
        simp [minByPrice, h]
      obtain ⟨pre, post, hdec, hpre⟩ := ih b
      cases pre with
      | nil =>
        rw [List.nil_append] at hdec
        injection hdec with hb hpost
        refine ⟨[], o :: rest, ?_, by simp⟩
        rw [hm, ← hb, List.nil_append]
      | cons p pre' =>
        rw [List.cons_append] at hdec
        injection hdec with hbp hrest
        refine ⟨b :: o :: pre', post, ?_, ?_⟩
        · rw [hm, List.cons_append, List.cons_append, ← hrest]
        · intro x hx
          rw [hm]
          have hmb : priceVal currency (minByPrice currency b rest) <
              priceVal currency b := by
            have hb' := hpre p (List.mem_cons_self _ _)
            rw [← hbp] at hb'
            exact hb'
          rcases List.mem_cons.mp hx with hb1 | hx'
          · rw [hb1]; exact hmb
          · rcases List.mem_cons.mp hx' with ho | hp'
            · rw [ho]
              exact lt_of_lt_of_le hmb (le_of_not_lt h)
            · exact hpre x (List.mem_cons_of_mem _ hp')

/-- C3 (amended): a missing currency key on **any** compared offer makes
the whole selection fail with the `KeyError` (it is not excluded from
the comparison), and the empty-sequence `ValueError` (`NoOfferError`)
occurs exactly when no offer passes the stock/store filters. -/
theorem selectBest_error_behavior (offers : List Offer) (currency : String)
    (store : Option String) :
    ((∃ o ∈ qualifying offers store, priceKey o currency = none) →
      selectBest offers currency store = .error .keyError) ∧
    (qualifying offers store = [] →
      selectBest offers currency store = .error .noOffer) := by
  constructor
  · rintro ⟨o, ho, hnone⟩
    have hany : (qualifying offers store).any
        (fun o => (priceKey o currency).isNone) = true := by
      rw [List.any_eq_true]
      exact ⟨o, ho, by rw [hnone]; rfl⟩
    simp [selectBest, hany]
  · intro h
    simp [selectBest, h]

/-- C3 (counterexample): with one in-stock offer lacking the `eur` key
and another comparable in-stock offer at price 9, the selection aborts
with the `KeyError` instead of excluding the incomparable offer and
returning 9 as the claim requires. -/
theorem selectBest_missing_key_cex :
    selectBest [⟨"InStock", "A", []⟩, ⟨"InStock", "B", [("eur", 9)]⟩] "eur" none =
      .error .keyError ∧
    selectBest [⟨"InStock", "A", []⟩, ⟨"InStock", "B", [("eur", 9)]⟩] "eur" none ≠
      .ok 9 := by
  refine ⟨rfl, fun h => ?_⟩
  exact Except.noConfusion
    ((rfl : selectBest [⟨"InStock", "A", []⟩, ⟨"InStock", "B", [("eur", 9)]⟩]
        "eur" none = Except.error SelectError.keyError).symm.trans h)

/-- Witness for C3 (amended) at concrete inputs: an in-stock offer with
no `eur` price key makes the selection fail with the `KeyError`, and a
list whose only offer is out of stock fails with the empty-sequence
error. -/
theorem selectBest_error_behavior_witness :
    selectBest [⟨"InStock", "A", []⟩] "eur" none = .error .keyError ∧
    selectBest [⟨"OutOfStock", "A", [("eur", 5)]⟩] "eur" none = .error .noOffer :=
  ⟨(selectBest_error_behavior [⟨"InStock", "A", []⟩] "eur" none).1
      ⟨⟨"InStock", "A", []⟩, by decide, rfl⟩,
   (selectBest_error_behavior [⟨"OutOfStock", "A", [("eur", 5)]⟩] "eur" none).2
      (by decide)⟩

/-- C4: when every offer that passes the stock filter (and the exact,
case-sensitive store filter, when one is set) carries the requested
currency key, and at least one such offer exists, the selection returns
the `price[currency].price` value of a qualifying offer that is minimal
among all qualifying offers, every qualifying offer strictly before it
being strictly more expensive — so among equal minima the
first-encountered offer wins. -/
theorem selectBest_min_first (offers : List Offer) (currency : String)
    (store : Option String)
    (hkeys : ∀ o ∈ qualifying offers store, (priceKey o currency).isSome = true)
    (hne : qualifying offers store ≠ []) :
    ∃ pre best post,
      qualifying offers store = pre ++ best :: post ∧
      priceKey best currency = some (priceVal currency best) ∧
      selectBest offers currency store = .ok (priceVal currency best) ∧
      (∀ x ∈ pre, priceVal currency best < priceVal currency x) ∧
      (∀ x ∈ qualifying offers store,
        priceVal currency best ≤ priceVal currency x) := by
  have hany : (qualifying offers store).any
      (fun o => (priceKey o currency).isNone) = false := by
    rw [List.any_eq_false]
    intro x hx
    have hs := hkeys x hx
    cases hpk : priceKey x currency with
    | none => rw [hpk] at hs; exact Bool.noConfusion hs
    | some v => simp
  cases hq : qualifying offers store with
  | nil => exact absurd hq hne
  | cons o rest =>
    have hsel : selectBest offers currency store =
        .ok (priceVal currency (minByPrice currency o rest)) := by
      rw [hq] at hany
      simp [selectBest, hq, hany]
    obtain ⟨pre, post, hdec, hpre⟩ := minByPrice_decomp currency rest o
    refine ⟨pre, minByPrice currency o rest, post, hdec, ?_, hsel, hpre, ?_⟩
    · have hmem : minByPrice currency o rest ∈ qualifying offers store := by
        rw [hq, hdec]
        exact List.mem_append_right _ (List.mem_cons_self _ _)
      have hs := hkeys _ hmem
      cases hpk : priceKey (minByPrice currency o rest) currency with
      | none => rw [hpk] at hs; exact Bool.noConfusion hs
      | some v => simp [priceVal, hpk]
    · intro x hx
      exact minByPrice_le currency rest o x hx

/-- Witness for C4 at a concrete offer list with a price tie: three
offers qualify (10, 5, 5 — the out-of-stock 1 is filtered out) and the
selection picks the earliest offer at the minimal price 5. -/
theorem selectBest_min_first_witness :
    ∃ pre best post,
      qualifying [⟨"InStock", "A", [("eur", 10)]⟩,
        ⟨"OutOfStock", "C", [("eur", 1)]⟩,
        ⟨"InStock", "B", [("eur", 5)]⟩,
        ⟨"InStock", "D", [("eur", 5)]⟩] none = pre ++ best :: post ∧
      priceKey best "eur" = some (priceVal "eur" best) ∧
      selectBest [⟨"InStock", "A", [("eur", 10)]⟩,
        ⟨"OutOfStock", "C", [("eur", 1)]⟩,
        ⟨"InStock", "B", [("eur", 5)]⟩,
        ⟨"InStock", "D", [("eur", 5)]⟩] "eur" none = .ok (priceVal "eur" best) ∧
      (∀ x ∈ pre, priceVal "eur" best < priceVal "eur" x) ∧
      (∀ x ∈ qualifying [⟨"InStock", "A", [("eur", 10)]⟩,
        ⟨"OutOfStock", "C", [("eur", 1)]⟩,
        ⟨"InStock", "B", [("eur", 5)]⟩,
        ⟨"InStock", "D", [("eur", 5)]⟩] none,
        priceVal "eur" best ≤ priceVal "eur" x) :=
  selectBest_min_first _ "eur" none (by decide) (by decide)

/-! ## Tick isolation (claim C8) -/

theorem tickUpdate_of_fails {fetch : ProductCtx → Except FetchError (List Offer)}
    {store : Option String} {p : ProductCtx}
    (h : productFails fetch store p = true) (g : Gauge) :
    tickUpdate (fetch p) store p g = g := by
  cases hf : fetch p with
  | error e => simp [tickUpdate, hf]
  | ok offers =>
    cases hs : selectBest offers p.currency store with
    | error e => simp [tickUpdate, hf, hs]
    | ok q => simp [productFails, hf, hs] at h

theorem runTick_untouched (fetch : ProductCtx → Except FetchError (List Offer))
    (store : Option String) :
    ∀ (ps : List ProductCtx) (g : Gauge) (k : String × String),
      (∀ q ∈ ps, productFails fetch store q = true ∨ (q.name, q.currency) ≠ k) →
      runTick fetch store ps g k = g k := by
  intro ps
  induction ps with
  | nil => intro g k _; rfl
  | cons q rest ih =>
    intro g k h
    have h1 : runTick fetch store (q :: rest) g =
        runTick fetch store rest (tickUpdate (fetch q) store q g) := rfl
    rw [h1, ih _ k (fun q' hq' => h q' (List.mem_cons_of_mem _ hq'))]
    rcases h q (List.mem_cons_self _ _) with hfail | hne
    · rw [tickUpdate_of_fails hfail]
    · cases hf : fetch q with
      | error e => simp [tickUpdate, hf]
      | ok offers =>
        cases hs : selectBest offers q.currency store with
        | error e => simp [tickUpdate, hf, hs]
        | ok best =>
          simp only [tickUpdate, hf, hs]
          show (if k = (q.name, q.currency) then some best else g k) = g k
          rw [if_neg (Ne.symm hne)]

/-- C8: if the per-product `try` block fails for one product of a tick
(fetch or selection failure), the tick behaves exactly as if that
product were absent — every other product is still fetched, selected and
published — and, when no other product of the tick writes the failed
product's label pair, that pair's previously published gauge value is
unchanged. -/
theorem tick_failure_isolated (fetch : ProductCtx → Except FetchError (List Offer))
    (store : Option String) (pre post : List ProductCtx) (p : ProductCtx)
    (g : Gauge) (hfail : productFails fetch store p = true) :
    runTick fetch store (pre ++ p :: post) g = runTick fetch store (pre ++ post) g ∧
    ((∀ q ∈ pre ++ post,
        productFails fetch store q = true ∨ (q.name, q.currency) ≠ (p.name, p.currency)) →
      runTick fetch store (pre ++ p :: post) g (p.name, p.currency) =
        g (p.name, p.currency)) := by
  have h1 : runTick fetch store (pre ++ p :: post) g =
      runTick fetch store (pre ++ post) g := by
    unfold runTick
    rw [List.foldl_append, List.foldl_append, List.foldl_cons,
      tickUpdate_of_fails hfail]
  refine ⟨h1, fun hoth => ?_⟩
  rw [h1]
  exact runTick_untouched fetch store (pre ++ post) g _ hoth

/-- Witness for C8 at a concrete tick: the product `bad` whose fetch
fails does not stop `good` from being published, and the gauge value of
`bad`'s label pair stays at its previous (absent) value. -/
theorem tick_failure_isolated_witness :
    runTick fetchFlaky none ([prodGood] ++ prodBad :: []) gaugeEmpty =
      runTick fetchFlaky none ([prodGood] ++ []) gaugeEmpty ∧
    runTick fetchFlaky none ([prodGood] ++ prodBad :: []) gaugeEmpty
      (prodBad.name, prodBad.currency) =
      gaugeEmpty (prodBad.name, prodBad.currency) :=
  ⟨(tick_failure_isolated fetchFlaky none [prodGood] [] prodBad gaugeEmpty rfl).1,
   (tick_failure_isolated fetchFlaky none [prodGood] [] prodBad gaugeEmpty rfl).2
      (by decide)⟩

/-! ## The store-filter leak (claim C1) -/

/-- C1 (code evaluated at the failing input): with two configured
products whose sections set `Store = A` and `Store = B` respectively,
setup succeeds, the spec-prescribed filter of product 1 is its own
`"A"`, but the polling loop applies the **last** section's `"B"` to
every product (the `settings` variable leaks out of the configuration
loop), so product 1's gauge is published from store `B`'s offer at
price 5, while its own filter would have selected store `A`'s price
10. -/
theorem store_filter_leak :
    setupProducts cfgLeak (fun _ _ => .error .attributeError) =
      .ok [⟨1, "1", "eur"⟩, ⟨2, "2", "eur"⟩] ∧
    specStoreFilter cfgLeak sec1Leak = some "A" ∧
    tickStoreFilter cfgLeak = some "B" ∧
    runTick fetchLeak (tickStoreFilter cfgLeak) [⟨1, "1", "eur"⟩, ⟨2, "2", "eur"⟩]
      gaugeEmpty ("1", "eur") = some 5 ∧
    selectBest offersLeak "eur" (specStoreFilter cfgLeak sec1Leak) = .ok 10 ∧
    (some (5 : ℚ) : Option ℚ) ≠ some 10 := by
  refine ⟨rfl, rfl, rfl, rfl, rfl, by decide⟩

/-! ## Slug generator: character-level facts (claim C9) -/

theorem toNat_ofNat_of_valid {n : Nat} (h : n.isValidChar) :
    (Char.ofNat n).toNat = n := by
  unfold Char.ofNat
  rw [dif_pos h]
  rfl

theorem toNat_toLower_of_upper {c : Char}
    (h : c.toNat ≥ 65 ∧ c.toNat ≤ 90) :
    (Char.toLower c).toNat = c.toNat + 32 := by
  unfold Char.toLower
  rw [if_pos h]
  exact toNat_ofNat_of_valid (Or.inl (by omega))

theorem toLower_eq_self_of_not_upper {c : Char}
    (h : ¬(c.toNat ≥ 65 ∧ c.toNat ≤ 90)) : Char.toLower c = c := by
  unfold Char.toLower
  rw [if_neg h]

theorem toLower_idem (c : Char) :
    Char.toLower (Char.toLower c) = Char.toLower c := by
  by_cases h : c.toNat ≥ 65 ∧ c.toNat ≤ 90
  · have h2 := toNat_toLower_of_upper h
    exact toLower_eq_self_of_not_upper (by omega)
  · have h1 := toLower_eq_self_of_not_upper h
    rw [h1]
    exact h1

theorem mem_pyStrip {c : Char} {l : List Char} (h : c ∈ pyStrip l) : c ∈ l := by
  unfold pyStrip at h
  rw [List.mem_reverse] at h
  have h1 : c ∈ (l.dropWhile isPySpace).reverse :=
    List.Sublist.mem h (List.dropWhile_sublist _)
  rw [List.mem_reverse] at h1
  exact List.Sublist.mem h1 (List.dropWhile_sublist _)

theorem mem_trimHyphens {c : Char} {l : List Char} (h : c ∈ trimHyphens l) :
    c ∈ l := by
  unfold trimHyphens at h
  rw [List.mem_reverse] at h
  have h1 : c ∈ (l.dropWhile (· == '-')).reverse :=
    List.Sublist.mem h (List.dropWhile_sublist _)
  rw [List.mem_reverse] at h1
  exact List.Sublist.mem h1 (List.dropWhile_sublist _)

theorem mem_collapseSeps {c : Char} :
    ∀ {l : List Char}, c ∈ collapseSeps l →
      c = '-' ∨ (c ∈ l ∧ isSepChar c = false) := by
  intro l
  induction l with
  | nil => intro h; simp [collapseSeps] at h
  | cons a t ih =>
    cases t with
    | nil =>
      intro h
      by_cases ha : isSepChar a = true
      · rw [show collapseSeps [a] = ['-'] from by simp [collapseSeps, ha]] at h
        rw [List.mem_singleton] at h
        exact Or.inl h
      · rw [show collapseSeps [a] = [a] from by simp [collapseSeps, ha]] at h
        rw [List.mem_singleton] at h
        refine Or.inr ⟨by rw [h]; exact List.mem_cons_self _ _, ?_⟩
        rw [h]
        simpa using ha
    | cons d rest =>
      intro h
      by_cases ha : isSepChar a = true
      · by_cases hd : isSepChar d = true
        · rw [show collapseSeps (a :: d :: rest) = collapseSeps (d :: rest) from by
            simp [collapseSeps, ha, hd]] at h
          rcases ih h with h1 | ⟨h2, h3⟩
          · exact Or.inl h1
          · exact Or.inr ⟨List.mem_cons_of_mem _ h2, h3⟩
        · rw [show collapseSeps (a :: d :: rest) = '-' :: collapseSeps (d :: rest) from by
            simp [collapseSeps, ha, hd]] at h
          rcases List.mem_cons.mp h with h1 | h1
          · exact Or.inl h1
          · rcases ih h1 with h2 | ⟨h3, h4⟩
            · exact Or.inl h2
            · exact Or.inr ⟨List.mem_cons_of_mem _ h3, h4⟩
      · rw [show collapseSeps (a :: d :: rest) = a :: collapseSeps (d :: rest) from by
          simp [collapseSeps, ha]] at h
        rcases List.mem_cons.mp h with h1 | h1
        · refine Or.inr ⟨by rw [h1]; exact List.mem_cons_self _ _, ?_⟩
          rw [h1]
          simpa using ha
        · rcases ih h1 with h2 | ⟨h3, h4⟩
          · exact Or.inl h2
          · exact Or.inr ⟨List.mem_cons_of_mem _ h3, h4⟩

theorem collapseSeps_cons_nonsep {d : Char} (rest : List Char)
    (hd : isSepChar d = false) :
    ∃ t, collapseSeps (d :: rest) = d :: t := by
  cases rest with
  | nil => exact ⟨[], by simp [collapseSeps, hd]⟩
  | cons e r => exact ⟨collapseSeps (e :: r), by simp [collapseSeps, hd]⟩

theorem chain'_collapseSeps : ∀ l : List Char,
    List.Chain' sepAdjOK (collapseSeps l) := by
  intro l
  induction l with
  | nil => exact List.chain'_nil
  | cons a t ih =>
    cases t with
    | nil =>
      by_cases ha : isSepChar a = true
      · rw [show collapseSeps [a] = ['-'] from by simp [collapseSeps, ha]]
        exact List.chain'_singleton _
      · rw [show collapseSeps [a] = [a] from by simp [collapseSeps, ha]]
        exact List.chain'_singleton _
    | cons d rest =>
      by_cases ha : isSepChar a = true
      · by_cases hd : isSepChar d = true
        · rw [show collapseSeps (a :: d :: rest) = collapseSeps (d :: rest) from by
            simp [collapseSeps, ha, hd]]
          exact ih
        · have hd' : isSepChar d = false := by simpa using hd
          rw [show collapseSeps (a :: d :: rest) = '-' :: collapseSeps (d :: rest) from by
            simp [collapseSeps, ha, hd]]
          obtain ⟨t, ht⟩ := collapseSeps_cons_nonsep rest hd'
          rw [ht, List.chain'_cons]
          exact ⟨Or.inr hd', ht ▸ ih⟩
      · rw [show collapseSeps (a :: d :: rest) = a :: collapseSeps (d :: rest) from by
          simp [collapseSeps, ha]]
        rw [List.chain'_cons']
        exact ⟨fun y _ => Or.inl (by simpa using ha), ih⟩

theorem collapseSeps_eq_self : ∀ {l : List Char},
    (∀ c ∈ l, isSepChar c = true → c = '-') → List.Chain' sepAdjOK l →
    collapseSeps l = l := by
  intro l
  induction l with
  | nil => intro _ _; rfl
  | cons a t ih =>
    cases t with
    | nil =>
      intro hsep _
      by_cases ha : isSepChar a = true
      · have h1 := hsep a (List.mem_cons_self _ _) ha
        simp [collapseSeps, ha, h1]
      · simp [collapseSeps, ha]
    | cons d rest =>
      intro hsep hchain
      rw [List.chain'_cons] at hchain
      by_cases ha : isSepChar a = true
      · have ha' : a = '-' := hsep a (List.mem_cons_self _ _) ha
        have hd : isSepChar d = false := by
          rcases hchain.1 with h1 | h2
          · rw [ha] at h1; exact Bool.noConfusion h1
          · exact h2
        rw [show collapseSeps (a :: d :: rest) = '-' :: collapseSeps (d :: rest) from by
          simp [collapseSeps, ha, hd]]
        rw [ih (fun c hc hs => hsep c (List.mem_cons_of_mem _ hc) hs) hchain.2, ha']
      · rw [show collapseSeps (a :: d :: rest) = a :: collapseSeps (d :: rest) from by
          simp [collapseSeps, ha]]
        rw [ih (fun c hc hs => hsep c (List.mem_cons_of_mem _ hc) hs) hchain.2]

theorem dropWhile_eq_self_of_all {p : Char → Bool} {l : List Char}
    (h : ∀ c ∈ l, p c = false) : l.dropWhile p = l := by
  cases l with
  | nil => rfl
  | cons a t =>
    rw [List.dropWhile_cons, h a (List.mem_cons_self _ _)]
    simp

theorem map_eq_self_of_all {f : Char → Char} :
    ∀ {l : List Char}, (∀ c ∈ l, f c = c) → l.map f = l := by
  intro l
  induction l with
  | nil => intro _; rfl
  | cons a t ih =>
    intro h
    rw [List.map_cons, h a (List.mem_cons_self _ _),
      ih (fun c hc => h c (List.mem_cons_of_mem _ hc))]

theorem slugifyL_chars {l : List Char} {c : Char} (h : c ∈ slugifyL l) :
    Char.toLower c = c ∧ (c = '-' ∨ (isSepChar c = false ∧ isWordChar c = true)) := by
  unfold slugifyL at h
  have h3 := mem_trimHyphens h
  rcases mem_collapseSeps h3 with hc | ⟨h2, hns⟩
  · subst hc
    exact ⟨by decide, Or.inl rfl⟩
  · have hfil := List.mem_filter.mp h2
    have h0 := mem_pyStrip hfil.1
    obtain ⟨b, _, hb⟩ := List.mem_map.mp h0
    refine ⟨by rw [← hb]; exact toLower_idem b, Or.inr ⟨hns, ?_⟩⟩
    simp only [isSepChar, Bool.or_eq_false_iff] at hns
    have hfp := hfil.2
    rw [hns.1.1, hns.2] at hfp
    simpa using hfp

theorem chain'_reverse_of {l : List Char} (h : List.Chain' sepAdjOK l) :
    List.Chain' sepAdjOK l.reverse := by
  rw [List.chain'_reverse]
  exact h.imp (fun a b hab => Or.symm hab)

theorem chain'_slugifyL (l : List Char) : List.Chain' sepAdjOK (slugifyL l) := by
  unfold slugifyL trimHyphens
  have h0 := chain'_collapseSeps (keepWordSpaceHyphen (pyStrip (l.map Char.toLower)))
  have h1 := h0.suffix (List.dropWhile_suffix (· == '-'))
  have h2 := chain'_reverse_of h1
  have h3 := h2.suffix (List.dropWhile_suffix (· == '-'))
  exact chain'_reverse_of h3

theorem head?_dropWhile_hyphen {l : List Char} {c : Char}
    (h : (l.dropWhile (· == '-')).head? = some c) : (c == '-') = false := by
  have h2 := List.head?_dropWhile_not (· == '-') l
  rw [h] at h2
  exact h2

theorem trimHyphens_head {l : List Char} {c : Char}
    (h : (trimHyphens l).head? = some c) : (c == '-') = false := by
  unfold trimHyphens at h
  rw [List.head?_reverse] at h
  have hsplit := List.takeWhile_append_dropWhile (p := (· == '-'))
    (l := (l.dropWhile (· == '-')).reverse)
  have hW2 : ((l.dropWhile (· == '-')).reverse).getLast? = some c := by
    conv_lhs => rw [← hsplit]
    rw [List.getLast?_append, h]
    rfl
  rw [List.getLast?_reverse] at hW2
  exact head?_dropWhile_hyphen hW2

theorem trimHyphens_getLast {l : List Char} {c : Char}
    (h : (trimHyphens l).getLast? = some c) : (c == '-') = false := by
  unfold trimHyphens at h
  rw [List.getLast?_reverse] at h
  exact head?_dropWhile_hyphen h

theorem trimHyphens_eq_self {l : List Char}
    (hh : ∀ c, l.head? = some c → (c == '-') = false)
    (hl : ∀ c, l.getLast? = some c → (c == '-') = false) :
    trimHyphens l = l := by
  have h1 : l.dropWhile (· == '-') = l := by
    cases l with
    | nil => rfl
    | cons a t =>
      rw [List.dropWhile_cons, hh a rfl]
      simp
  unfold trimHyphens
  rw [h1]
  have h2 : l.reverse.dropWhile (· == '-') = l.reverse := by
    cases hc : l.reverse with
    | nil => rfl
    | cons a t =>
      have ha : l.getLast? = some a := by
        rw [← List.head?_reverse, hc]
        rfl
      rw [List.dropWhile_cons, hl a ha]
      simp
  rw [h2, List.reverse_reverse]

theorem slugifyL_idem (l : List Char) : slugifyL (slugifyL l) = slugifyL l := by
  have hlower : ∀ c ∈ slugifyL l, Char.toLower c = c :=
    fun c hc => (slugifyL_chars hc).1
  have hgood : ∀ c ∈ slugifyL l, c = '-' ∨ (isSepChar c = false ∧ isWordChar c = true) :=
    fun c hc => (slugifyL_chars hc).2
  have hnospace : ∀ c ∈ slugifyL l, isPySpace c = false := by
    intro c hc
    rcases hgood c hc with hc' | ⟨hs, _⟩
    · rw [hc']; decide
    · simp only [isSepChar, Bool.or_eq_false_iff] at hs
      exact hs.1.1
  have s1 : (slugifyL l).map Char.toLower = slugifyL l := map_eq_self_of_all hlower
  have s2 : pyStrip (slugifyL l) = slugifyL l := by
    unfold pyStrip
    rw [dropWhile_eq_self_of_all hnospace,
      dropWhile_eq_self_of_all (fun c hc => hnospace c (List.mem_reverse.mp hc)),
      List.reverse_reverse]
  have s3 : keepWordSpaceHyphen (slugifyL l) = slugifyL l := by
    unfold keepWordSpaceHyphen
    rw [List.filter_eq_self]
    intro c hc
    rcases hgood c hc with hc' | ⟨_, hw⟩
    · rw [hc']; decide
    · simp [hw]
  have s4 : collapseSeps (slugifyL l) = slugifyL l := by
    apply collapseSeps_eq_self
    · intro c hc hs
      rcases hgood c hc with hc' | ⟨hs', _⟩
      · exact hc'
      · rw [hs] at hs'
        exact Bool.noConfusion hs'
    · exact chain'_slugifyL l
  have s5 : trimHyphens (slugifyL l) = slugifyL l := by
    apply trimHyphens_eq_self
    · intro c hc
      exact trimHyphens_head hc
    · intro c hc
      exact trimHyphens_getLast hc
  calc slugifyL (slugifyL l)
      = trimHyphens (collapseSeps (keepWordSpaceHyphen
          (pyStrip ((slugifyL l).map Char.toLower)))) := rfl
    _ = slugifyL l := by rw [s1, s2, s3, s4, s5]

/-- C9: `to_slug` is a pure total function (its embedding is a total
Lean function with no error cases) and it is idempotent: applying it to
its own output returns that output unchanged, for every input string. -/
theorem slugify_idempotent (s : String) : slugify (slugify s) = slugify s := by
  have h : slugifyL (slugifyL s.data) = slugifyL s.data := slugifyL_idem s.data
  unfold slugify
  exact congrArg String.mk h
